import Mathlib

/-!
Shallow embedding of `core/audits/byte-efficiency/unused-javascript.js`
(the unused-javascript byte-efficiency audit of Lighthouse) and proofs of
the specification's claims about it.

JavaScript numbers are modelled as rationals (`ℚ`); `Math.round` as
`jsRound` (round half toward positive infinity); JavaScript strings as
lists of characters; a JS `Map` (which preserves insertion order) as an
association list with `mapGet` / `mapSet`.

External collaborators (the transfer-size estimator, the waste-summary
provider, the bundle resolver, the entity classifier) are out of scope of
the source file; their outputs are inputs of the embedding, carried by
`ScriptEntry`.
-/

namespace Lighthouse

/-- JavaScript strings, modelled as lists of characters (code units). -/
abbrev JsStr := List Char

/-- JavaScript `Math.round`: round half toward positive infinity. -/
def jsRound (q : ℚ) : ℤ := ⌊q + 1/2⌋

/-- JavaScript string comparison `a < b` (lexicographic on code units). -/
def ltb : JsStr → JsStr → Bool
  | _, [] => false
  | [], _ :: _ => true
  | a :: as, b :: bs => if a < b then true else if b < a then false else ltb as bs

/-- The `while` loop of `commonPrefix` (source lines 38-40): repeatedly drop
the last character (`prefix.slice(0, -1)`) until `maxWord` starts with the
candidate. -/
def shorten (maxWord : JsStr) (p : JsStr) : JsStr :=
  if h : p.isPrefixOf maxWord then p
  else
    have hp : p ≠ [] := by
      intro he
      rw [he] at h
      simp [List.isPrefixOf] at h
    shorten maxWord p.dropLast
termination_by p.length
decreasing_by
  rw [List.length_dropLast]
  have : 0 < p.length := List.length_pos.mpr hp
  omega

/-- Source lines 31-43. `strings.reduce((a, b) => a > b ? a : b)` computes the
lexicographically maximal string, `strings.reduce((a, b) => a > b ? b : a)` the
minimal one (`a > b` is `ltb b a`), and the while loop (`shorten`) then trims
the minimal string until it is a prefix of the maximal one. -/
def commonPrefix (strings : List JsStr) : JsStr :=
  match strings with
  | [] => []
  | s :: rest =>
    let maxWord := rest.foldl (fun a b => if ltb b a then a else b) s
    let minWord := rest.foldl (fun a b => if ltb b a then b else a) s
    shorten maxWord minWord

/-- Source lines 50-53: replace a leading occurrence of the common prefix by
an ellipsis character. -/
def trimCommonPrefix (s : JsStr) (cp : JsStr) : JsStr :=
  if cp = [] then s
  else if cp.isPrefixOf s then '…' :: s.drop cp.length else s

/-- Default main inclusion threshold (source line 25): 20 * 1024 bytes. -/
def UNUSED_BYTES_IGNORE_THRESHOLD : ℚ := 20 * 1024

/-- Default per-source inclusion threshold (source line 26): 512 bytes. -/
def UNUSED_BYTES_IGNORE_BUNDLE_SOURCE_THRESHOLD : ℚ := 512

/-- Per-file byte sizes of a successfully processed bundle: the `files` map
and the `unmappedBytes` count. -/
structure BundleSizes where
  files : List (JsStr × ℚ)
  unmappedBytes : ℚ

/-- A source-map bundle for a script. `sizes` is either the computed
`BundleSizes` or an error marker (`errorMessage` in place of sizes);
`sourceURLs` models `bundle.map.sourceURLs()`. -/
structure Bundle where
  sizes : Except JsStr BundleSizes
  sourceURLs : List JsStr

/-- Result of the waste-summary provider for one script (an external
collaborator): `{totalBytes, wastedBytes, wastedPercent, sourcesWastedBytes?}`. -/
structure UnusedJsSummary where
  totalBytes : ℚ
  wastedBytes : ℚ
  wastedPercent : ℚ
  sourcesWastedBytes : Option (List (JsStr × ℚ))

/-- Attribution of a URL to an organization. `ref` models JavaScript object
identity: the classifier returns the same object (same `ref`) for every
script of the same entity, so map keys compare by identity, not by name. -/
structure ClassifiedEntity where
  ref : Nat
  name : JsStr
  homepage : Option JsStr
deriving DecidableEq

/-- The network record matched to a script. `transferEstimate` is the output
of `ByteEfficiencyAudit.estimateTransferSize` (an external collaborator) for
this record. -/
structure NetworkRecord where
  transferEstimate : ℚ

/-- A script descriptor from the `Scripts` artifact. -/
structure Script where
  url : JsStr

/-- One iteration's worth of resolved inputs for the per-script loop (source
lines 96-105): the script descriptor found for the coverage entry (if any),
its network record (if any), its bundle (if any), its waste summary, and its
classified entity (if any). -/
structure ScriptEntry where
  script : Option Script
  networkRecord : Option NetworkRecord
  bundle : Option Bundle
  summary : UnusedJsSummary
  entity : Option ClassifiedEntity

/-- One ranked bundle-source waste entry (source lines 164-170). -/
structure SubItem where
  source : JsStr
  sourceBytes : ℤ
  sourceWastedBytes : ℤ

/-- One row of the final report (source lines 113-119, plus the optional
`subItems` attached at lines 162-171). -/
structure WasteItem where
  url : JsStr
  totalBytes : ℤ
  wastedBytes : ℤ
  wastedPercent : ℚ
  entity : Option JsStr
  subItems : Option (List SubItem)

/-- Aggregated totals for one entity (source lines 125-138). The constant
fields `url.type = 'link'` and `groupBy = 'entity'` are omitted; `linkText`
and `linkUrl` are the `url.text` / `url.url` display fields. -/
structure EntityGroup where
  linkText : JsStr
  linkUrl : JsStr
  entity : JsStr
  wastedBytes : ℤ
  totalBytes : ℤ
  wastedPercent : ℚ

/-- Runtime options (`context.options`, source lines 88-91): optional
overrides of the two thresholds. -/
structure AuditOptions where
  unusedThreshold : Option ℚ
  bundleSourceUnusedThreshold : Option ℚ

/-- Lookup in an insertion-ordered association list (JS `Map.prototype.get`). -/
def mapGet {κ ν : Type} [DecidableEq κ] (m : List (κ × ν)) (k : κ) : Option ν :=
  match m with
  | [] => none
  | (k', v) :: rest => if k' = k then some v else mapGet rest k

/-- Update in an insertion-ordered association list (JS `Map.prototype.set`):
an existing key keeps its position, a new key is appended at the end. -/
def mapSet {κ ν : Type} [DecidableEq κ] (m : List (κ × ν)) (k : κ) (v : ν) :
    List (κ × ν) :=
  match m with
  | [] => [(k, v)]
  | (k', v') :: rest => if k' = k then (k, v) :: rest else (k', v') :: mapSet rest k v

/-- Mutable state of the per-script loop: the `items` array and the
`byEntity` map (source lines 93-95). -/
structure AuditState where
  items : List WasteItem
  byEntity : List (Option ClassifiedEntity × EntityGroup)

/-- The special per-source key for bytes not mapped to any source file. -/
def unmappedKey : JsStr := "(unmapped)".toList

/-- Lookup of `sizes.files[source]` (source line 152). A key absent from the
map would be `undefined` (hence `NaN` after arithmetic) in JavaScript; the
model returns 0, a case no well-formed summary produces and no claim relies
on. -/
def lookupSize (files : List (JsStr × ℚ)) (source : JsStr) : ℚ :=
  ((files.find? (fun p => decide (p.1 = source))).map (·.2)).getD 0

/-- JavaScript `Array.prototype.sort` with comparator `(a, b) => b[1] - a[1]`
(source line 149): a stable sort, descending by the second component. -/
def sortByUnusedDesc (l : List (JsStr × ℚ)) : List (JsStr × ℚ) :=
  l.mergeSort (fun a b => decide (b.2 ≤ a.2))

/-- Source lines 148-171: rank the `sourcesWastedBytes` entries descending,
take the top 5, scale by `transferRatio` and round, drop entries whose scaled
unused bytes are below the per-source threshold (`d.unused >=
bundleSourceUnusedThreshold` keeps an entry), and compress each retained
source path by the common prefix of the bundle's full source-URL list. -/
def computeSubItemsList (transferRatio bundleSourceUnusedThreshold : ℚ)
    (bundle : Bundle) (sizes : BundleSizes) (swb : List (JsStr × ℚ)) :
    List SubItem :=
  let topUnusedSourceSizes : List (JsStr × ℤ × ℤ) :=
    (((sortByUnusedDesc swb).take 5).map (fun p =>
      let total := if p.1 = unmappedKey then sizes.unmappedBytes else lookupSize sizes.files p.1
      (p.1, jsRound (p.2 * transferRatio), jsRound (total * transferRatio)))).filter
      (fun d => decide (bundleSourceUnusedThreshold ≤ (d.2.1 : ℚ)))
  let commonSourcePre := commonPrefix bundle.sourceURLs
  topUnusedSourceSizes.map (fun d =>
    { source := trimCommonPrefix d.1 commonSourcePre
      sourceBytes := d.2.2
      sourceWastedBytes := d.2.1 })

/-- Source lines 113-119: the transfer-scaled item, before sub-items. -/
def scaledItem (transferRatio : ℚ) (url : JsStr) (s : UnusedJsSummary)
    (classifiedEntity : Option ClassifiedEntity) : WasteItem :=
  { url := url
    totalBytes := jsRound (transferRatio * s.totalBytes)
    wastedBytes := jsRound (transferRatio * s.wastedBytes)
    wastedPercent := s.wastedPercent
    entity := classifiedEntity.map (·.name)
    subItems := none }

/-- Source lines 141-172: the sub-item list attached to an item, when there is
a bundle whose sizes computed successfully and the summary carries a
`sourcesWastedBytes` map; otherwise the item keeps no sub-items. -/
def subItemsFor (bundleSourceUnusedThreshold transferRatio : ℚ)
    (bundle : Option Bundle) (s : UnusedJsSummary) : Option (List SubItem) :=
  match bundle with
  | none => none
  | some b =>
    match b.sizes with
    | .error _ => none
    | .ok sizes =>
      match s.sourcesWastedBytes with
      | none => none
      | some swb =>
        some (computeSubItemsList transferRatio bundleSourceUnusedThreshold b sizes swb)

/-- A freshly created entity group (source lines 125-135): zero totals and the
display fields derived from the classified entity (`name || ''`,
`homepage || '#'`). `wastedPercent` is recomputed before the group is ever
stored, so its initial value is immaterial; the model uses 0. -/
def freshGroup (classifiedEntity : Option ClassifiedEntity) : EntityGroup :=
  { linkText := (classifiedEntity.map (·.name)).getD []
    linkUrl :=
      match classifiedEntity with
      | none => "#".toList
      | some ent =>
        match ent.homepage with
        | none => "#".toList
        | some h => if h = [] then "#".toList else h
    entity := (classifiedEntity.map (·.name)).getD []
    wastedBytes := 0
    totalBytes := 0
    wastedPercent := 0 }

/-- Source lines 125-138: take the existing group for the entity (or a fresh
one), add the item's scaled figures to the running totals (`(x || 0) + y` is
plain addition on numbers), and recompute `wastedPercent` from the new
totals. -/
def rolledGroup (byEntity : List (Option ClassifiedEntity × EntityGroup))
    (classifiedEntity : Option ClassifiedEntity) (item : WasteItem) :
    EntityGroup :=
  let g0 := (mapGet byEntity classifiedEntity).getD (freshGroup classifiedEntity)
  let totalBytes := g0.totalBytes + item.totalBytes
  let wastedBytes := g0.wastedBytes + item.wastedBytes
  { g0 with
    totalBytes := totalBytes
    wastedBytes := wastedBytes
    wastedPercent := (wastedBytes : ℚ) / (totalBytes : ℚ) * 100 }

/-- Source lines 96-122 and 141-172, per entry: the item this entry
contributes to the report, if any. `none` models every `continue` that skips
the script (missing script descriptor, missing network record, zero waste or
zero size, scaled waste at or below the main threshold); the item's
`subItems` field carries the optional sub-item list. -/
def emittedItem (unusedThreshold bundleSourceUnusedThreshold : ℚ)
    (e : ScriptEntry) : Option WasteItem :=
  match e.script with
  | none => none
  | some script =>
    match e.networkRecord with
    | none => none
    | some networkRecord =>
      let unusedJsSummary := e.summary
      if unusedJsSummary.wastedBytes = 0 ∨ unusedJsSummary.totalBytes = 0 then none
      else
        let transfer := networkRecord.transferEstimate
        let transferRatio := transfer / unusedJsSummary.totalBytes
        let item := scaledItem transferRatio script.url unusedJsSummary e.entity
        if (item.wastedBytes : ℚ) ≤ unusedThreshold then none
        else
          some { item with
            subItems := subItemsFor bundleSourceUnusedThreshold transferRatio
              e.bundle unusedJsSummary }

/-- One iteration of the per-script loop (source lines 96-173): if the entry
contributes an item, push it onto `items` and fold it into the `byEntity`
map; otherwise leave the state unchanged. -/
def processEntry (unusedThreshold bundleSourceUnusedThreshold : ℚ)
    (st : AuditState) (e : ScriptEntry) : AuditState :=
  match emittedItem unusedThreshold bundleSourceUnusedThreshold e with
  | none => st
  | some item =>
    { items := st.items ++ [item]
      byEntity := mapSet st.byEntity e.entity (rolledGroup st.byEntity e.entity item) }

/-- The whole per-script loop of `audit_` (source lines 88-173): resolve the
two thresholds from the options (with the source's defaults) and fold every
coverage entry through `processEntry`, starting from empty `items` and
`byEntity`. -/
def auditFinal (opts : AuditOptions) (entries : List ScriptEntry) : AuditState :=
  let unusedThreshold := opts.unusedThreshold.getD UNUSED_BYTES_IGNORE_THRESHOLD
  let bundleSourceUnusedThreshold :=
    opts.bundleSourceUnusedThreshold.getD UNUSED_BYTES_IGNORE_BUNDLE_SOURCE_THRESHOLD
  entries.foldl (processEntry unusedThreshold bundleSourceUnusedThreshold) ⟨[], []⟩

/-- The audit's observable output (source lines 176-180): the item list in
loop order and the entity groups as `[...byEntity.values()]`, in the order
the groups were first created. The static `headings` metadata is not
modelled. -/
def audit_ (opts : AuditOptions) (entries : List ScriptEntry) :
    List WasteItem × List EntityGroup :=
  ((auditFinal opts entries).items, (auditFinal opts entries).byEntity.map (·.2))

/-- Options with no overrides: both thresholds take the source's defaults. -/
def defaultOptions : AuditOptions := ⟨none, none⟩

/-! ### Concrete inputs used to instantiate the theorems -/

/-- A script whose scaled wasted bytes land exactly on the default main
threshold (transfer 100000 = summary total, wasted 20480). -/
def entryAtThreshold : ScriptEntry :=
  ⟨some ⟨"a.js".toList⟩, some ⟨100000⟩, none, ⟨100000, 20480, 2048/100, none⟩, none⟩

/-- A script whose scaled wasted bytes exceed the default main threshold by
one byte (wasted 20481). -/
def entryAboveThreshold : ScriptEntry :=
  ⟨some ⟨"a.js".toList⟩, some ⟨100000⟩, none, ⟨100000, 20481, 20481/1000, none⟩, none⟩

/-- A script with transfer ratio exactly 1: transfer 100000, summary total
100000, wasted 50000, percent 50. -/
def entryRatioOne : ScriptEntry :=
  ⟨some ⟨"a.js".toList⟩, some ⟨100000⟩, none, ⟨100000, 50000, 50, none⟩, none⟩

/-- Like `entryRatioOne`, but carrying a bundle whose size computation
failed (an error marker in place of per-file sizes). -/
def entryBundleError : ScriptEntry :=
  ⟨some ⟨"a.js".toList⟩, some ⟨100000⟩,
   some ⟨Except.error "Unable to parse source map".toList, []⟩,
   ⟨100000, 50000, 50, none⟩, none⟩

/-! ### Basic facts about `jsRound` -/

theorem jsRound_intCast (n : ℤ) : jsRound (n : ℚ) = n := by
  unfold jsRound
  rw [add_comm, Int.floor_add_int]
  norm_num

theorem jsRound_mono {a b : ℚ} (h : a ≤ b) : jsRound a ≤ jsRound b :=
  Int.floor_le_floor (by linarith)

theorem le_jsRound_iff {n : ℤ} {q : ℚ} : n ≤ jsRound q ↔ (n : ℚ) - 1/2 ≤ q := by
  unfold jsRound
  rw [Int.le_floor]
  constructor <;> intro h <;> [linarith [h]; linarith [h]]

theorem jsRound_nonneg {q : ℚ} (h : 0 ≤ q) : 0 ≤ jsRound q := by
  have := jsRound_mono h
  rwa [show jsRound 0 = 0 from by exact jsRound_intCast 0] at this

/-! ### Unfolding lemmas for the per-entry step -/

theorem emittedItem_none_of_zero {uT bT : ℚ} {e : ScriptEntry}
    (h : e.summary.wastedBytes = 0 ∨ e.summary.totalBytes = 0) :
    emittedItem uT bT e = none := by
  unfold emittedItem
  cases hs : e.script with
  | none => rfl
  | some script =>
    cases hn : e.networkRecord with
    | none => rfl
    | some nr => simp [h]

theorem emittedItem_eq {uT bT : ℚ} {e : ScriptEntry} {script : Script}
    {nr : NetworkRecord}
    (hs : e.script = some script) (hn : e.networkRecord = some nr)
    (hg : ¬(e.summary.wastedBytes = 0 ∨ e.summary.totalBytes = 0)) :
    emittedItem uT bT e =
      (if ((scaledItem (nr.transferEstimate / e.summary.totalBytes) script.url
            e.summary e.entity).wastedBytes : ℚ) ≤ uT then none
       else some { scaledItem (nr.transferEstimate / e.summary.totalBytes)
                     script.url e.summary e.entity with
                   subItems := subItemsFor bT
                     (nr.transferEstimate / e.summary.totalBytes)
                     e.bundle e.summary }) := by
  unfold emittedItem
  rw [hs, hn]
  simp [hg]

theorem processEntry_of_none {uT bT : ℚ} {st : AuditState} {e : ScriptEntry}
    (h : emittedItem uT bT e = none) : processEntry uT bT st e = st := by
  unfold processEntry
  rw [h]

theorem processEntry_of_some {uT bT : ℚ} {st : AuditState} {e : ScriptEntry}
    {item : WasteItem} (h : emittedItem uT bT e = some item) :
    processEntry uT bT st e =
      { items := st.items ++ [item]
        byEntity := mapSet st.byEntity e.entity
          (rolledGroup st.byEntity e.entity item) } := by
  unfold processEntry
  rw [h]

/-! ### Claim C10: the zero-waste / zero-size guard precedes the division -/

/-- C10: a script whose waste summary has `wastedBytes = 0` or
`totalBytes = 0` is skipped before any scaling is computed, and consequently
every entry that is not skipped has a nonzero `totalBytes`, so the division
`transfer / totalBytes` defining `transferRatio` is never evaluated with a
zero denominator. -/
theorem C10_zero_guard (uT bT : ℚ) (st : AuditState) (e : ScriptEntry) :
    ((e.summary.wastedBytes = 0 ∨ e.summary.totalBytes = 0) →
      processEntry uT bT st e = st) ∧
    (processEntry uT bT st e ≠ st → e.summary.totalBytes ≠ 0) := by
  constructor
  · intro h0
    exact processEntry_of_none (emittedItem_none_of_zero h0)
  · intro hne ht0
    exact hne (processEntry_of_none (emittedItem_none_of_zero (Or.inr ht0)))

/-- Concrete instance of `C10_zero_guard`: a summary with zero wasted bytes
leaves the state untouched. -/
theorem C10_zero_guard_witness :
    processEntry 20480 512 ⟨[], []⟩
      ⟨some ⟨"a.js".toList⟩, some ⟨100⟩, none, ⟨1000, 0, 0, none⟩, none⟩ =
      ⟨[], []⟩ :=
  (C10_zero_guard 20480 512 ⟨[], []⟩
    ⟨some ⟨"a.js".toList⟩, some ⟨100⟩, none, ⟨1000, 0, 0, none⟩, none⟩).1
    (Or.inl rfl)

/-! ### Claim C2: the main inclusion threshold is strict, after scaling -/

/-- C2: for an entry reaching the main inclusion check, scaled wasted bytes
exactly equal to the (integer) configured threshold exclude the item, and
scaled wasted bytes at least one byte above it include the item; the compared
quantity is the transfer-scaled, rounded wasted-byte figure. -/
theorem C2_threshold_boundary (uT bT : ℚ) (st : AuditState) (e : ScriptEntry)
    (script : Script) (nr : NetworkRecord) (T : ℤ)
    (hs : e.script = some script) (hn : e.networkRecord = some nr)
    (hg : ¬(e.summary.wastedBytes = 0 ∨ e.summary.totalBytes = 0))
    (hT : uT = (T : ℚ)) :
    (jsRound (nr.transferEstimate / e.summary.totalBytes * e.summary.wastedBytes) = T →
      processEntry uT bT st e = st) ∧
    (T + 1 ≤ jsRound (nr.transferEstimate / e.summary.totalBytes * e.summary.wastedBytes) →
      ∃ item : WasteItem,
        (processEntry uT bT st e).items = st.items ++ [item] ∧
        item.wastedBytes =
          jsRound (nr.transferEstimate / e.summary.totalBytes * e.summary.wastedBytes)) := by
  constructor
  · intro heq
    have hcond : ((scaledItem (nr.transferEstimate / e.summary.totalBytes)
        script.url e.summary e.entity).wastedBytes : ℚ) ≤ uT := by
      simp only [scaledItem]
      rw [heq, hT]
    exact processEntry_of_none (by rw [emittedItem_eq hs hn hg, if_pos hcond])
  · intro hgt
    have hcond : ¬ ((scaledItem (nr.transferEstimate / e.summary.totalBytes)
        script.url e.summary e.entity).wastedBytes : ℚ) ≤ uT := by
      simp only [scaledItem]
      rw [hT]
      push_neg
      have h1 : ((T + 1 : ℤ) : ℚ) ≤
          (jsRound (nr.transferEstimate / e.summary.totalBytes * e.summary.wastedBytes) : ℚ) := by
        exact_mod_cast hgt
      push_cast at h1
      linarith
    refine ⟨{ scaledItem (nr.transferEstimate / e.summary.totalBytes)
        script.url e.summary e.entity with
        subItems := subItemsFor bT (nr.transferEstimate / e.summary.totalBytes)
          e.bundle e.summary }, ?_, ?_⟩
    · rw [processEntry_of_some (by rw [emittedItem_eq hs hn hg, if_neg hcond])]
    · simp [scaledItem]

/-- Concrete instance of `C2_threshold_boundary`: with transfer ratio 1 and
the default threshold 20480, wasted bytes 20480 are excluded and wasted bytes
20481 are included. -/
theorem C2_threshold_boundary_witness :
    processEntry 20480 512 ⟨[], []⟩ entryAtThreshold = ⟨[], []⟩ ∧
    ∃ item : WasteItem,
      (processEntry 20480 512 ⟨[], []⟩ entryAboveThreshold).items = [] ++ [item] ∧
      item.wastedBytes = jsRound ((100000 : ℚ) / 100000 * 20481) := by
  constructor
  · refine (C2_threshold_boundary 20480 512 ⟨[], []⟩ entryAtThreshold
      ⟨"a.js".toList⟩ ⟨100000⟩ 20480 rfl rfl ?_ (by norm_num)).1 ?_
    · simp [entryAtThreshold]
    · show jsRound ((100000 : ℚ) / 100000 * 20480) = 20480
      unfold jsRound
      norm_num
  · refine (C2_threshold_boundary 20480 512 ⟨[], []⟩ entryAboveThreshold
      ⟨"a.js".toList⟩ ⟨100000⟩ 20480 rfl rfl ?_ (by norm_num)).2 ?_
    · simp [entryAboveThreshold]
    · show 20480 + 1 ≤ jsRound ((100000 : ℚ) / 100000 * 20481)
      unfold jsRound
      norm_num

/-! ### Claim C3: transfer scaling of the item's figures -/

/-- C3: the emitted item's `totalBytes` and `wastedBytes` are the rounded
transfer-scaled summary figures (`transferRatio = transfer / totalBytes`) and
`wastedPercent` passes through unscaled; when the estimated transfer size
equals the summary's `totalBytes` (ratio 1) and the summary figures are
integers, the scaled figures equal the summary figures exactly. -/
theorem C3_scaled_figures (uT bT : ℚ) (e : ScriptEntry)
    (script : Script) (nr : NetworkRecord)
    (hs : e.script = some script) (hn : e.networkRecord = some nr)
    (hg : ¬(e.summary.wastedBytes = 0 ∨ e.summary.totalBytes = 0))
    (hincl : uT <
      (jsRound (nr.transferEstimate / e.summary.totalBytes * e.summary.wastedBytes) : ℚ)) :
    ∃ item : WasteItem,
      emittedItem uT bT e = some item ∧
      item.totalBytes =
        jsRound (nr.transferEstimate / e.summary.totalBytes * e.summary.totalBytes) ∧
      item.wastedBytes =
        jsRound (nr.transferEstimate / e.summary.totalBytes * e.summary.wastedBytes) ∧
      item.wastedPercent = e.summary.wastedPercent ∧
      (∀ n w : ℤ, nr.transferEstimate = e.summary.totalBytes →
        e.summary.totalBytes = (n : ℚ) → e.summary.wastedBytes = (w : ℚ) →
        item.totalBytes = n ∧ item.wastedBytes = w) := by
  have hcond : ¬ ((scaledItem (nr.transferEstimate / e.summary.totalBytes)
      script.url e.summary e.entity).wastedBytes : ℚ) ≤ uT := by
    simp only [scaledItem]
    push_neg
    exact hincl
  have ht0 : e.summary.totalBytes ≠ 0 := by tauto
  refine ⟨_, by rw [emittedItem_eq hs hn hg, if_neg hcond], by simp [scaledItem],
    by simp [scaledItem], by simp [scaledItem], ?_⟩
  intro n w htr htn hwn
  have hr : nr.transferEstimate / e.summary.totalBytes = 1 := by
    rw [htr, div_self ht0]
  constructor
  · show jsRound (nr.transferEstimate / e.summary.totalBytes * e.summary.totalBytes) = n
    rw [hr, one_mul, htn, jsRound_intCast]
  · show jsRound (nr.transferEstimate / e.summary.totalBytes * e.summary.wastedBytes) = w
    rw [hr, one_mul, hwn, jsRound_intCast]

/-- Concrete instance of `C3_scaled_figures`: transfer 100000 over summary
total 100000 and wasted 50000 gives an item with exactly those figures. -/
theorem C3_scaled_figures_witness :
    ∃ item : WasteItem,
      emittedItem 20480 512 entryRatioOne = some item ∧
      item.totalBytes = 100000 ∧ item.wastedBytes = 50000 ∧
      item.wastedPercent = 50 := by
  obtain ⟨item, h1, _, _, h4, h5⟩ :=
    C3_scaled_figures 20480 512 entryRatioOne ⟨"a.js".toList⟩ ⟨100000⟩ rfl rfl
      (by simp [entryRatioOne])
      (by show (20480 : ℚ) <
            (jsRound ((100000 : ℚ) / 100000 * 50000) : ℚ)
          rw [show jsRound ((100000 : ℚ) / 100000 * 50000) = 50000 from by
            unfold jsRound; norm_num]
          norm_num)
  obtain ⟨hn', hw'⟩ := h5 100000 50000 rfl
    (by norm_num [entryRatioOne]) (by norm_num [entryRatioOne])
  exact ⟨item, h1, hn', hw', h4⟩

/-! ### Claim C7: a missing or failed bundle only suppresses sub-items -/

/-- C7: for an entry whose bundle is absent, or whose bundle carries an error
marker in place of per-file sizes, the script-level item is still appended to
the report and still folded into its entity group; only the sub-item list is
omitted. -/
theorem C7_bundle_error_degrades (uT bT : ℚ) (st : AuditState) (e : ScriptEntry)
    (script : Script) (nr : NetworkRecord)
    (hs : e.script = some script) (hn : e.networkRecord = some nr)
    (hg : ¬(e.summary.wastedBytes = 0 ∨ e.summary.totalBytes = 0))
    (hincl : uT <
      (jsRound (nr.transferEstimate / e.summary.totalBytes * e.summary.wastedBytes) : ℚ))
    (hb : e.bundle = none ∨
      ∃ b msg, e.bundle = some b ∧ b.sizes = Except.error msg) :
    ∃ item : WasteItem,
      (processEntry uT bT st e).items = st.items ++ [item] ∧
      item.subItems = none ∧
      (processEntry uT bT st e).byEntity =
        mapSet st.byEntity e.entity (rolledGroup st.byEntity e.entity item) := by
  have hcond : ¬ ((scaledItem (nr.transferEstimate / e.summary.totalBytes)
      script.url e.summary e.entity).wastedBytes : ℚ) ≤ uT := by
    simp only [scaledItem]
    push_neg
    exact hincl
  have hsub : subItemsFor bT (nr.transferEstimate / e.summary.totalBytes)
      e.bundle e.summary = none := by
    rcases hb with hb | ⟨b, msg, hb, herr⟩
    · rw [hb]
      rfl
    · rw [hb]
      simp [subItemsFor, herr]
  have hitem : emittedItem uT bT e =
      some { scaledItem (nr.transferEstimate / e.summary.totalBytes)
               script.url e.summary e.entity with subItems := none } := by
    rw [emittedItem_eq hs hn hg, if_neg hcond, hsub]
  refine ⟨{ scaledItem (nr.transferEstimate / e.summary.totalBytes)
      script.url e.summary e.entity with subItems := none }, ?_, rfl, ?_⟩
  · rw [processEntry_of_some hitem]
  · rw [processEntry_of_some hitem]

/-- Concrete instance of `C7_bundle_error_degrades`: a bundle whose size
computation failed still yields the script-level item, without sub-items. -/
theorem C7_bundle_error_degrades_witness :
    ∃ item : WasteItem,
      (processEntry 20480 512 ⟨[], []⟩ entryBundleError).items = [] ++ [item] ∧
      item.subItems = none ∧
      (processEntry 20480 512 ⟨[], []⟩ entryBundleError).byEntity =
        mapSet [] entryBundleError.entity
          (rolledGroup [] entryBundleError.entity item) :=
  C7_bundle_error_degrades 20480 512 ⟨[], []⟩ entryBundleError
    ⟨"a.js".toList⟩ ⟨100000⟩ rfl rfl
    (by simp [entryBundleError])
    (by show (20480 : ℚ) < (jsRound ((100000 : ℚ) / 100000 * 50000) : ℚ)
        rw [show jsRound ((100000 : ℚ) / 100000 * 50000) = 50000 from by
          unfold jsRound; norm_num]
        norm_num)
    (Or.inr ⟨⟨Except.error "Unable to parse source map".toList, []⟩,
      "Unable to parse source map".toList, rfl, rfl⟩)

/-! ### Association-list (JS `Map`) lemmas -/

theorem mapGet_mapSet_self {κ ν : Type} [DecidableEq κ]
    (m : List (κ × ν)) (k : κ) (v : ν) : mapGet (mapSet m k v) k = some v := by
  induction m with
  | nil => simp [mapSet, mapGet]
  | cons p rest ih =>
    obtain ⟨k', v'⟩ := p
    by_cases h : k' = k
    · simp [mapSet, mapGet, h]
    · simp [mapSet, mapGet, h, ih]

theorem mapGet_mapSet_ne {κ ν : Type} [DecidableEq κ]
    (m : List (κ × ν)) {k j : κ} (v : ν) (h : j ≠ k) :
    mapGet (mapSet m k v) j = mapGet m j := by
  induction m with
  | nil => simp [mapSet, mapGet, Ne.symm h]
  | cons p rest ih =>
    obtain ⟨k', v'⟩ := p
    by_cases hk : k' = k
    · simp [mapSet, mapGet, hk, Ne.symm h]
    · by_cases hj : k' = j
      · simp [mapSet, mapGet, hk, hj, h]
      · simp [mapSet, mapGet, hk, hj, ih]

theorem mem_mapSet {κ ν : Type} [DecidableEq κ]
    {m : List (κ × ν)} {k : κ} {v : ν} {p : κ × ν} (hp : p ∈ mapSet m k v) :
    p = (k, v) ∨ p ∈ m := by
  induction m with
  | nil => simpa [mapSet] using hp
  | cons q rest ih =>
    obtain ⟨k', v'⟩ := q
    by_cases h : k' = k
    · simp [mapSet, h] at hp
      rcases hp with hp | hp
      · exact Or.inl (by simp [hp])
      · exact Or.inr (List.mem_cons_of_mem _ hp)
    · simp [mapSet, h] at hp
      rcases hp with hp | hp
      · exact Or.inr (by simp [hp])
      · rcases ih hp with hh | hh
        · exact Or.inl hh
        · exact Or.inr (List.mem_cons_of_mem _ hh)

theorem mapGet_mem {κ ν : Type} [DecidableEq κ]
    {m : List (κ × ν)} {k : κ} {v : ν} (h : mapGet m k = some v) : (k, v) ∈ m := by
  induction m with
  | nil => simp [mapGet] at h
  | cons q rest ih =>
    obtain ⟨k', v'⟩ := q
    by_cases hk : k' = k
    · subst hk
      simp [mapGet] at h
      simp [h]
    · simp [mapGet, hk] at h
      exact List.mem_cons_of_mem _ (ih h)

theorem keys_mapSet {κ ν : Type} [DecidableEq κ]
    (m : List (κ × ν)) (k : κ) (v : ν) :
    (mapSet m k v).map Prod.fst =
      if k ∈ m.map Prod.fst then m.map Prod.fst else m.map Prod.fst ++ [k] := by
  induction m with
  | nil => simp [mapSet]
  | cons q rest ih =>
    obtain ⟨k', v'⟩ := q
    by_cases h : k' = k
    · simp [mapSet, h]
    · by_cases hm : k ∈ rest.map Prod.fst
      · simp [mapSet, h, ih, hm, Ne.symm h]
      · simp [mapSet, h, ih, hm, Ne.symm h]

/-! ### Decomposition of the per-entry step -/

theorem emittedItem_some_elim {uT bT : ℚ} {e : ScriptEntry} {item : WasteItem}
    (h : emittedItem uT bT e = some item) :
    ∃ script nr, e.script = some script ∧ e.networkRecord = some nr ∧
      ¬(e.summary.wastedBytes = 0 ∨ e.summary.totalBytes = 0) ∧
      ¬(((scaledItem (nr.transferEstimate / e.summary.totalBytes) script.url
          e.summary e.entity).wastedBytes : ℚ) ≤ uT) ∧
      item = { scaledItem (nr.transferEstimate / e.summary.totalBytes) script.url
                 e.summary e.entity with
               subItems := subItemsFor bT (nr.transferEstimate / e.summary.totalBytes)
                 e.bundle e.summary } := by
  cases hs : e.script with
  | none => rw [emittedItem, hs] at h; exact absurd h (by simp)
  | some script =>
    cases hn : e.networkRecord with
    | none => rw [emittedItem, hs, hn] at h; exact absurd h (by simp)
    | some nr =>
      by_cases hg : e.summary.wastedBytes = 0 ∨ e.summary.totalBytes = 0
      · rw [emittedItem_none_of_zero hg] at h
        exact absurd h (by simp)
      · rw [emittedItem_eq hs hn hg] at h
        by_cases hc : ((scaledItem (nr.transferEstimate / e.summary.totalBytes)
            script.url e.summary e.entity).wastedBytes : ℚ) ≤ uT
        · rw [if_pos hc] at h
          exact absurd h (by simp)
        · rw [if_neg hc] at h
          exact ⟨script, nr, rfl, rfl, hg, hc, (Option.some_injective _ h).symm⟩

theorem processEntry_items (uT bT : ℚ) (st : AuditState) (e : ScriptEntry) :
    (processEntry uT bT st e).items =
      st.items ++ (emittedItem uT bT e).toList := by
  cases h : emittedItem uT bT e with
  | none => rw [processEntry_of_none h]; simp
  | some item => rw [processEntry_of_some h]; simp

/-- The output item list is the input entry list filtered and mapped through
the per-entry step, in order. -/
theorem auditFold_items (uT bT : ℚ) (entries : List ScriptEntry) :
    ∀ st : AuditState,
      (entries.foldl (processEntry uT bT) st).items =
        st.items ++ entries.filterMap (emittedItem uT bT) := by
  induction entries with
  | nil => intro st; simp
  | cons e rest ih =>
    intro st
    rw [List.foldl_cons, ih, processEntry_items, List.filterMap_cons]
    cases h : emittedItem uT bT e <;> simp

theorem mem_audit_items {opts : AuditOptions} {entries : List ScriptEntry}
    {it : WasteItem} (h : it ∈ (audit_ opts entries).1) :
    ∃ e ∈ entries,
      emittedItem (opts.unusedThreshold.getD UNUSED_BYTES_IGNORE_THRESHOLD)
        (opts.bundleSourceUnusedThreshold.getD
          UNUSED_BYTES_IGNORE_BUNDLE_SOURCE_THRESHOLD) e = some it := by
  have hh : (audit_ opts entries).1 =
      entries.filterMap (emittedItem
        (opts.unusedThreshold.getD UNUSED_BYTES_IGNORE_THRESHOLD)
        (opts.bundleSourceUnusedThreshold.getD
          UNUSED_BYTES_IGNORE_BUNDLE_SOURCE_THRESHOLD)) := by
    show (auditFinal opts entries).items = _
    rw [auditFinal, auditFold_items]
    simp
  rw [hh] at h
  obtain ⟨e, he, hee⟩ := List.mem_filterMap.mp h
  exact ⟨e, he, hee⟩

/-! ### Claim C8: items keep input order, groups keep creation order -/

/-- Insert a key at the end unless it is already present (how a JS `Map`
extends its key order on `set`). -/
def insertKey {κ : Type} [DecidableEq κ] (acc : List κ) (k : κ) : List κ :=
  if k ∈ acc then acc else acc ++ [k]

/-- The keys of a list, each kept at the position of its first occurrence. -/
def firstSeen {κ : Type} [DecidableEq κ] (l : List κ) : List κ :=
  l.foldl insertKey []

theorem processEntry_keys (uT bT : ℚ) (st : AuditState) (e : ScriptEntry) :
    (processEntry uT bT st e).byEntity.map Prod.fst =
      (match emittedItem uT bT e with
       | none => st.byEntity.map Prod.fst
       | some _ => insertKey (st.byEntity.map Prod.fst) e.entity) := by
  cases h : emittedItem uT bT e with
  | none => rw [processEntry_of_none h]
  | some item =>
    rw [processEntry_of_some h]
    show (mapSet st.byEntity e.entity _).map Prod.fst = _
    rw [keys_mapSet]
    rfl

theorem auditFold_keys (uT bT : ℚ) (entries : List ScriptEntry) :
    ∀ st : AuditState,
      ((entries.foldl (processEntry uT bT) st).byEntity.map Prod.fst) =
        (entries.filterMap (fun e =>
          if (emittedItem uT bT e).isSome then some e.entity else none)).foldl
          insertKey (st.byEntity.map Prod.fst) := by
  induction entries with
  | nil => intro st; rfl
  | cons e rest ih =>
    intro st
    rw [List.foldl_cons, ih, List.filterMap_cons]
    cases h : emittedItem uT bT e with
    | none =>
      simp only [h, Option.isSome_none, Bool.false_eq_true, if_false]
      rw [processEntry_keys, h]
    | some item =>
      simp only [h, Option.isSome_some, if_true, List.foldl_cons]
      rw [processEntry_keys, h]

/-- C8: the output item list is exactly the input entry list passed through
the per-entry step in input iteration order (`filterMap` keeps order and
applies no sort), and the output group list is the `byEntity` map's values
with the map's keys in first-creation order (`firstSeen` of the qualifying
entries' entity keys, in input order). -/
theorem C8_output_order (opts : AuditOptions) (entries : List ScriptEntry) :
    (audit_ opts entries).1 = entries.filterMap
      (emittedItem (opts.unusedThreshold.getD UNUSED_BYTES_IGNORE_THRESHOLD)
        (opts.bundleSourceUnusedThreshold.getD
          UNUSED_BYTES_IGNORE_BUNDLE_SOURCE_THRESHOLD)) ∧
    (audit_ opts entries).2 = (auditFinal opts entries).byEntity.map Prod.snd ∧
    (auditFinal opts entries).byEntity.map Prod.fst =
      firstSeen (entries.filterMap (fun e =>
        if (emittedItem (opts.unusedThreshold.getD UNUSED_BYTES_IGNORE_THRESHOLD)
             (opts.bundleSourceUnusedThreshold.getD
               UNUSED_BYTES_IGNORE_BUNDLE_SOURCE_THRESHOLD) e).isSome
        then some e.entity else none)) := by
  refine ⟨?_, rfl, ?_⟩
  · show (auditFinal opts entries).items = _
    rw [auditFinal, auditFold_items]
    simp
  · rw [auditFinal, auditFold_keys]
    rfl

/-! ### Entity roll-up accounting -/

/-- The items contributed by the entries classified to entity key `k`. -/
def keyItems (uT bT : ℚ) (entries : List ScriptEntry)
    (k : Option ClassifiedEntity) : List WasteItem :=
  entries.filterMap (fun e => if e.entity = k then emittedItem uT bT e else none)

/-- Running total bytes of the group stored for key `k` (0 when absent). -/
def groupTotalAt (m : List (Option ClassifiedEntity × EntityGroup))
    (k : Option ClassifiedEntity) : ℤ :=
  ((mapGet m k).map (·.totalBytes)).getD 0

/-- Running wasted bytes of the group stored for key `k` (0 when absent). -/
def groupWastedAt (m : List (Option ClassifiedEntity × EntityGroup))
    (k : Option ClassifiedEntity) : ℤ :=
  ((mapGet m k).map (·.wastedBytes)).getD 0

theorem processEntry_group_totals (uT bT : ℚ) (st : AuditState) (e : ScriptEntry)
    (k : Option ClassifiedEntity) :
    groupTotalAt (processEntry uT bT st e).byEntity k =
      groupTotalAt st.byEntity k +
        (((if e.entity = k then emittedItem uT bT e else none).map
          (·.totalBytes)).getD 0) ∧
    groupWastedAt (processEntry uT bT st e).byEntity k =
      groupWastedAt st.byEntity k +
        (((if e.entity = k then emittedItem uT bT e else none).map
          (·.wastedBytes)).getD 0) := by
  cases h : emittedItem uT bT e with
  | none =>
    rw [processEntry_of_none h]
    by_cases hk : e.entity = k <;> simp [hk, h]
  | some item =>
    rw [processEntry_of_some h]
    by_cases hk : e.entity = k
    · subst hk
      constructor
      · show groupTotalAt (mapSet st.byEntity e.entity _) e.entity = _
        unfold groupTotalAt
        rw [mapGet_mapSet_self]
        simp only [h, if_pos rfl]
        cases hg : mapGet st.byEntity e.entity <;>
          simp [rolledGroup, freshGroup, hg, add_comm]
      · show groupWastedAt (mapSet st.byEntity e.entity _) e.entity = _
        unfold groupWastedAt
        rw [mapGet_mapSet_self]
        simp only [h, if_pos rfl]
        cases hg : mapGet st.byEntity e.entity <;>
          simp [rolledGroup, freshGroup, hg, add_comm]
    · constructor
      · show groupTotalAt (mapSet st.byEntity e.entity _) k = _
        unfold groupTotalAt
        rw [mapGet_mapSet_ne _ _ (fun hh => hk hh.symm)]
        simp [hk]
      · show groupWastedAt (mapSet st.byEntity e.entity _) k = _
        unfold groupWastedAt
        rw [mapGet_mapSet_ne _ _ (fun hh => hk hh.symm)]
        simp [hk]

theorem auditFold_group_totals (uT bT : ℚ) (entries : List ScriptEntry)
    (k : Option ClassifiedEntity) :
    ∀ st : AuditState,
      groupTotalAt ((entries.foldl (processEntry uT bT) st).byEntity) k =
        groupTotalAt st.byEntity k +
          ((keyItems uT bT entries k).map (·.totalBytes)).sum ∧
      groupWastedAt ((entries.foldl (processEntry uT bT) st).byEntity) k =
        groupWastedAt st.byEntity k +
          ((keyItems uT bT entries k).map (·.wastedBytes)).sum := by
  induction entries with
  | nil => intro st; simp [keyItems]
  | cons e rest ih =>
    intro st
    obtain ⟨iht, ihw⟩ := ih (processEntry uT bT st e)
    obtain ⟨ht, hw⟩ := processEntry_group_totals uT bT st e k
    rw [List.foldl_cons]
    constructor
    · rw [iht, ht]
      unfold keyItems
      rw [List.filterMap_cons]
      cases hq : (if e.entity = k then emittedItem uT bT e else none) <;>
        simp [hq, add_assoc]
    · rw [ihw, hw]
      unfold keyItems
      rw [List.filterMap_cons]
      cases hq : (if e.entity = k then emittedItem uT bT e else none) <;>
        simp [hq, add_assoc]

theorem auditFold_percent (uT bT : ℚ) (entries : List ScriptEntry) :
    ∀ st : AuditState,
      (∀ p ∈ st.byEntity,
        p.2.wastedPercent = (p.2.wastedBytes : ℚ) / (p.2.totalBytes : ℚ) * 100) →
      ∀ p ∈ (entries.foldl (processEntry uT bT) st).byEntity,
        p.2.wastedPercent = (p.2.wastedBytes : ℚ) / (p.2.totalBytes : ℚ) * 100 := by
  induction entries with
  | nil => intro st h; exact h
  | cons e rest ih =>
    intro st h
    rw [List.foldl_cons]
    refine ih _ ?_
    intro p hp
    cases hi : emittedItem uT bT e with
    | none =>
      rw [processEntry_of_none hi] at hp
      exact h p hp
    | some item =>
      rw [processEntry_of_some hi] at hp
      rcases mem_mapSet hp with hp | hp
      · rw [hp]
        simp [rolledGroup]
      · exact h p hp

theorem auditFold_wasted_le (uT bT : ℚ) (entries : List ScriptEntry)
    (hit : ∀ e ∈ entries, ∀ item, emittedItem uT bT e = some item →
      item.wastedBytes ≤ item.totalBytes) :
    ∀ st : AuditState,
      (∀ p ∈ st.byEntity, p.2.wastedBytes ≤ p.2.totalBytes) →
      ∀ p ∈ (entries.foldl (processEntry uT bT) st).byEntity,
        p.2.wastedBytes ≤ p.2.totalBytes := by
  induction entries with
  | nil => intro st h; exact h
  | cons e rest ih =>
    intro st h
    rw [List.foldl_cons]
    refine ih (fun e' he' => hit e' (List.mem_cons_of_mem _ he')) _ ?_
    intro p hp
    cases hi : emittedItem uT bT e with
    | none =>
      rw [processEntry_of_none hi] at hp
      exact h p hp
    | some item =>
      rw [processEntry_of_some hi] at hp
      rcases mem_mapSet hp with hp | hp
      · rw [hp]
        have hitem : item.wastedBytes ≤ item.totalBytes :=
          hit e (List.mem_cons_self _ _) item hi
        have hg0 : ((mapGet st.byEntity e.entity).getD
            (freshGroup e.entity)).wastedBytes ≤
            ((mapGet st.byEntity e.entity).getD (freshGroup e.entity)).totalBytes := by
          cases hg : mapGet st.byEntity e.entity with
          | none => simp [freshGroup]
          | some g =>
            simpa using h (e.entity, g) (mapGet_mem hg)
        show (rolledGroup st.byEntity e.entity item).wastedBytes ≤
          (rolledGroup st.byEntity e.entity item).totalBytes
        simp only [rolledGroup]
        exact add_le_add hg0 hitem
      · exact h p hp

/-! ### Concrete entries for the entity roll-up scenarios -/

/-- A third-party classification shared by two scripts (same object identity). -/
def entitySharedX : ClassifiedEntity := ⟨1, "x.example".toList, none⟩

/-- A script of `entitySharedX` contributing scaled 30000 wasted of 60000
total (transfer ratio 1). -/
def entryShared : ScriptEntry :=
  ⟨some ⟨"s.js".toList⟩, some ⟨60000⟩, none, ⟨60000, 30000, 50, none⟩,
   some entitySharedX⟩

/-- The item `entryShared` contributes. -/
def itemShared : WasteItem :=
  ⟨"s.js".toList, 60000, 30000, 50, some "x.example".toList, none⟩

/-- Two classifications with the same name but distinct identities. -/
def entryDupA : ScriptEntry :=
  ⟨some ⟨"da.js".toList⟩, some ⟨60000⟩, none, ⟨60000, 30000, 50, none⟩,
   some ⟨1, "dup".toList, none⟩⟩

/-- Second script, same entity name as `entryDupA` but a distinct
classification object. -/
def entryDupB : ScriptEntry :=
  ⟨some ⟨"db.js".toList⟩, some ⟨60000⟩, none, ⟨60000, 30000, 50, none⟩,
   some ⟨2, "dup".toList, none⟩⟩

/-- Evaluation of the per-entry step on a bundle-less entry. -/
theorem emittedItem_simple (uT bT : ℚ) (url : JsStr) (tr tot w p : ℚ)
    (ent : Option ClassifiedEntity)
    (hg : ¬(w = 0 ∨ tot = 0)) (hincl : ¬((jsRound (tr / tot * w) : ℚ) ≤ uT)) :
    emittedItem uT bT ⟨some ⟨url⟩, some ⟨tr⟩, none, ⟨tot, w, p, none⟩, ent⟩ =
      some ⟨url, jsRound (tr / tot * tot), jsRound (tr / tot * w), p,
        ent.map (·.name), none⟩ := by
  rw [@emittedItem_eq uT bT _ ⟨url⟩ ⟨tr⟩ rfl rfl hg]
  simp [scaledItem, subItemsFor, hincl]

theorem emittedItem_entryShared :
    emittedItem UNUSED_BYTES_IGNORE_THRESHOLD
      UNUSED_BYTES_IGNORE_BUNDLE_SOURCE_THRESHOLD entryShared =
      some itemShared := by
  have h := emittedItem_simple UNUSED_BYTES_IGNORE_THRESHOLD
    UNUSED_BYTES_IGNORE_BUNDLE_SOURCE_THRESHOLD "s.js".toList 60000 60000 30000 50
    (some entitySharedX) (by norm_num)
    (by rw [show jsRound ((60000 : ℚ) / 60000 * 30000) = 30000 from by
          unfold jsRound; norm_num]
        norm_num [UNUSED_BYTES_IGNORE_THRESHOLD])
  rw [show entryShared = ⟨some ⟨"s.js".toList⟩, some ⟨(60000 : ℚ)⟩, none,
    ⟨60000, 30000, 50, none⟩, some entitySharedX⟩ from rfl, h]
  rw [show jsRound ((60000 : ℚ) / 60000 * 30000) = 30000 from by
        unfold jsRound; norm_num,
      show jsRound ((60000 : ℚ) / 60000 * 60000) = 60000 from by
        unfold jsRound; norm_num]
  rfl

theorem emittedItem_entryDupA :
    emittedItem UNUSED_BYTES_IGNORE_THRESHOLD
      UNUSED_BYTES_IGNORE_BUNDLE_SOURCE_THRESHOLD entryDupA =
      some ⟨"da.js".toList, 60000, 30000, 50, some "dup".toList, none⟩ := by
  have h := emittedItem_simple UNUSED_BYTES_IGNORE_THRESHOLD
    UNUSED_BYTES_IGNORE_BUNDLE_SOURCE_THRESHOLD "da.js".toList 60000 60000 30000 50
    (some ⟨1, "dup".toList, none⟩) (by norm_num)
    (by rw [show jsRound ((60000 : ℚ) / 60000 * 30000) = 30000 from by
          unfold jsRound; norm_num]
        norm_num [UNUSED_BYTES_IGNORE_THRESHOLD])
  rw [show entryDupA = ⟨some ⟨"da.js".toList⟩, some ⟨(60000 : ℚ)⟩, none,
    ⟨60000, 30000, 50, none⟩, some ⟨1, "dup".toList, none⟩⟩ from rfl, h]
  rw [show jsRound ((60000 : ℚ) / 60000 * 30000) = 30000 from by
        unfold jsRound; norm_num,
      show jsRound ((60000 : ℚ) / 60000 * 60000) = 60000 from by
        unfold jsRound; norm_num]
  rfl

theorem emittedItem_entryDupB :
    emittedItem UNUSED_BYTES_IGNORE_THRESHOLD
      UNUSED_BYTES_IGNORE_BUNDLE_SOURCE_THRESHOLD entryDupB =
      some ⟨"db.js".toList, 60000, 30000, 50, some "dup".toList, none⟩ := by
  have h := emittedItem_simple UNUSED_BYTES_IGNORE_THRESHOLD
    UNUSED_BYTES_IGNORE_BUNDLE_SOURCE_THRESHOLD "db.js".toList 60000 60000 30000 50
    (some ⟨2, "dup".toList, none⟩) (by norm_num)
    (by rw [show jsRound ((60000 : ℚ) / 60000 * 30000) = 30000 from by
          unfold jsRound; norm_num]
        norm_num [UNUSED_BYTES_IGNORE_THRESHOLD])
  rw [show entryDupB = ⟨some ⟨"db.js".toList⟩, some ⟨(60000 : ℚ)⟩, none,
    ⟨60000, 30000, 50, none⟩, some ⟨2, "dup".toList, none⟩⟩ from rfl, h]
  rw [show jsRound ((60000 : ℚ) / 60000 * 30000) = 30000 from by
        unfold jsRound; norm_num,
      show jsRound ((60000 : ℚ) / 60000 * 60000) = 60000 from by
        unfold jsRound; norm_num]
  rfl

/-! ### Claim C5: roll-up keyed by classification identity, additive totals -/

/-- C5: the entity roll-up is keyed by the classified entity itself (an
`Option ClassifiedEntity`, so an absent classification is one distinct key),
the stored group's running totals are exactly the sums of the scaled figures
of the items contributed under that key, and its percent is recomputed from
those totals; concretely, two scripts of one shared entity contributing
30000/60000 each yield the single group (60000, 120000, 50%), while two
same-named but distinct classifications yield two groups. -/
theorem C5_entity_rollup (opts : AuditOptions) (entries : List ScriptEntry)
    (k : Option ClassifiedEntity) :
    (groupTotalAt (auditFinal opts entries).byEntity k =
      ((keyItems (opts.unusedThreshold.getD UNUSED_BYTES_IGNORE_THRESHOLD)
         (opts.bundleSourceUnusedThreshold.getD
           UNUSED_BYTES_IGNORE_BUNDLE_SOURCE_THRESHOLD) entries k).map
        (·.totalBytes)).sum ∧
     groupWastedAt (auditFinal opts entries).byEntity k =
      ((keyItems (opts.unusedThreshold.getD UNUSED_BYTES_IGNORE_THRESHOLD)
         (opts.bundleSourceUnusedThreshold.getD
           UNUSED_BYTES_IGNORE_BUNDLE_SOURCE_THRESHOLD) entries k).map
        (·.wastedBytes)).sum ∧
     ∀ g, mapGet (auditFinal opts entries).byEntity k = some g →
       g.wastedPercent = (g.wastedBytes : ℚ) / (g.totalBytes : ℚ) * 100) ∧
    (audit_ defaultOptions [entryShared, entryShared]).2.map
      (fun g => (g.wastedBytes, g.totalBytes, g.wastedPercent)) =
      [(60000, 120000, 50)] ∧
    (audit_ defaultOptions [entryDupA, entryDupB]).2.length = 2 := by
  refine ⟨⟨?_, ?_, ?_⟩, ?_, ?_⟩
  · have h := (auditFold_group_totals
      (opts.unusedThreshold.getD UNUSED_BYTES_IGNORE_THRESHOLD)
      (opts.bundleSourceUnusedThreshold.getD
        UNUSED_BYTES_IGNORE_BUNDLE_SOURCE_THRESHOLD) entries k ⟨[], []⟩).1
    rw [show auditFinal opts entries = entries.foldl
      (processEntry (opts.unusedThreshold.getD UNUSED_BYTES_IGNORE_THRESHOLD)
        (opts.bundleSourceUnusedThreshold.getD
          UNUSED_BYTES_IGNORE_BUNDLE_SOURCE_THRESHOLD)) ⟨[], []⟩ from rfl, h]
    simp [groupTotalAt, mapGet]
  · have h := (auditFold_group_totals
      (opts.unusedThreshold.getD UNUSED_BYTES_IGNORE_THRESHOLD)
      (opts.bundleSourceUnusedThreshold.getD
        UNUSED_BYTES_IGNORE_BUNDLE_SOURCE_THRESHOLD) entries k ⟨[], []⟩).2
    rw [show auditFinal opts entries = entries.foldl
      (processEntry (opts.unusedThreshold.getD UNUSED_BYTES_IGNORE_THRESHOLD)
        (opts.bundleSourceUnusedThreshold.getD
          UNUSED_BYTES_IGNORE_BUNDLE_SOURCE_THRESHOLD)) ⟨[], []⟩ from rfl, h]
    simp [groupWastedAt, mapGet]
  · intro g hg
    have h := auditFold_percent
      (opts.unusedThreshold.getD UNUSED_BYTES_IGNORE_THRESHOLD)
      (opts.bundleSourceUnusedThreshold.getD
        UNUSED_BYTES_IGNORE_BUNDLE_SOURCE_THRESHOLD) entries ⟨[], []⟩
      (by intro p hp; exact absurd hp (by simp))
      (k, g) (mapGet_mem hg)
    exact h
  · show (((([entryShared, entryShared].foldl
      (processEntry UNUSED_BYTES_IGNORE_THRESHOLD
        UNUSED_BYTES_IGNORE_BUNDLE_SOURCE_THRESHOLD) ⟨[], []⟩)).byEntity).map
      (·.2)).map _ = _
    rw [List.foldl_cons, List.foldl_cons, List.foldl_nil,
      processEntry_of_some emittedItem_entryShared,
      processEntry_of_some emittedItem_entryShared]
    simp [mapSet, mapGet, rolledGroup, freshGroup, itemShared, entryShared]
    norm_num
  · show (((([entryDupA, entryDupB].foldl
      (processEntry UNUSED_BYTES_IGNORE_THRESHOLD
        UNUSED_BYTES_IGNORE_BUNDLE_SOURCE_THRESHOLD) ⟨[], []⟩)).byEntity).map
      (·.2)).length = 2
    rw [List.foldl_cons, List.foldl_cons, List.foldl_nil,
      processEntry_of_some emittedItem_entryDupA,
      processEntry_of_some emittedItem_entryDupB]
    simp [mapSet, mapGet, entryDupA, entryDupB]

/-- Concrete instance of `C5_entity_rollup` at the shared-entity key: the
stored totals equal the sums over that key's contributed items, and the
scenario conjuncts hold. -/
theorem C5_entity_rollup_witness :
    (groupTotalAt (auditFinal defaultOptions [entryShared, entryShared]).byEntity
        (some entitySharedX) =
      ((keyItems UNUSED_BYTES_IGNORE_THRESHOLD
         UNUSED_BYTES_IGNORE_BUNDLE_SOURCE_THRESHOLD [entryShared, entryShared]
         (some entitySharedX)).map (·.totalBytes)).sum) ∧
    (audit_ defaultOptions [entryShared, entryShared]).2.map
      (fun g => (g.wastedBytes, g.totalBytes, g.wastedPercent)) =
      [(60000, 120000, 50)] ∧
    (audit_ defaultOptions [entryDupA, entryDupB]).2.length = 2 := by
  have h := C5_entity_rollup defaultOptions [entryShared, entryShared]
    (some entitySharedX)
  exact ⟨h.1.1, h.2.1, h.2.2⟩

/-! ### Claim C4: waste never exceeds total; percent consistent -/

theorem emittedItem_item_props {uT bT : ℚ} {e : ScriptEntry} {item : WasteItem}
    (h : emittedItem uT bT e = some item)
    (hw0 : 0 ≤ e.summary.wastedBytes)
    (hwt : e.summary.wastedBytes ≤ e.summary.totalBytes)
    (htr : ∀ nr, e.networkRecord = some nr → 0 ≤ nr.transferEstimate) :
    item.wastedBytes ≤ item.totalBytes ∧
    (0 ≤ uT → e.summary.wastedPercent =
        e.summary.wastedBytes / e.summary.totalBytes * 100 →
      ∃ a b : ℚ, item.wastedBytes = jsRound a ∧ item.totalBytes = jsRound b ∧
        a / b * 100 = item.wastedPercent) := by
  obtain ⟨script, nr, hs, hn, hg, hc, hitem⟩ := emittedItem_some_elim h
  push_neg at hg
  obtain ⟨hwne, htne⟩ := hg
  have htpos : 0 < e.summary.totalBytes :=
    lt_of_le_of_ne (le_trans hw0 hwt) (Ne.symm htne)
  have hrnn : 0 ≤ nr.transferEstimate / e.summary.totalBytes :=
    div_nonneg (htr nr hn) (le_of_lt htpos)
  simp only [scaledItem] at hc
  subst hitem
  constructor
  · show jsRound (nr.transferEstimate / e.summary.totalBytes *
        e.summary.wastedBytes) ≤
      jsRound (nr.transferEstimate / e.summary.totalBytes * e.summary.totalBytes)
    exact jsRound_mono (mul_le_mul_of_nonneg_left hwt hrnn)
  · intro huT hp
    have hlt : uT < (jsRound (nr.transferEstimate / e.summary.totalBytes *
        e.summary.wastedBytes) : ℚ) := not_le.mp hc
    have h0 : (0 : ℚ) < (jsRound (nr.transferEstimate / e.summary.totalBytes *
        e.summary.wastedBytes) : ℚ) := lt_of_le_of_lt huT hlt
    have h1 : (1 : ℤ) ≤ jsRound (nr.transferEstimate / e.summary.totalBytes *
        e.summary.wastedBytes) := by exact_mod_cast h0
    have hhalf : (1 : ℚ) - 1/2 ≤ nr.transferEstimate / e.summary.totalBytes *
        e.summary.wastedBytes := le_jsRound_iff.mp h1
    have hrpos : 0 < nr.transferEstimate / e.summary.totalBytes := by
      rcases lt_or_le 0 (nr.transferEstimate / e.summary.totalBytes) with hh | hh
      · exact hh
      · exfalso
        have : nr.transferEstimate / e.summary.totalBytes *
            e.summary.wastedBytes ≤ 0 * e.summary.wastedBytes :=
          mul_le_mul_of_nonneg_right hh hw0
        rw [zero_mul] at this
        linarith
    refine ⟨nr.transferEstimate / e.summary.totalBytes * e.summary.wastedBytes,
      nr.transferEstimate / e.summary.totalBytes * e.summary.totalBytes,
      rfl, rfl, ?_⟩
    show nr.transferEstimate / e.summary.totalBytes * e.summary.wastedBytes /
        (nr.transferEstimate / e.summary.totalBytes * e.summary.totalBytes) *
        100 = e.summary.wastedPercent
    rw [mul_div_mul_left _ _ (ne_of_gt hrpos), hp]

/-- C4: assuming the waste summaries are well-formed (nonnegative wasted
bytes not exceeding total bytes, percent derived from them), the transfer
estimates nonnegative and the main threshold nonnegative, every output item
and every entity group satisfies `wastedBytes ≤ totalBytes`; each item's
percent is the unrounded ratio of the pre-rounding scaled figures (the byte
figures being their roundings), and each group's percent is recomputed
exactly from its summed totals. -/
theorem C4_waste_invariants (opts : AuditOptions) (entries : List ScriptEntry)
    (hthr : 0 ≤ opts.unusedThreshold.getD UNUSED_BYTES_IGNORE_THRESHOLD)
    (hsum : ∀ e ∈ entries, 0 ≤ e.summary.wastedBytes ∧
      e.summary.wastedBytes ≤ e.summary.totalBytes ∧
      e.summary.wastedPercent = e.summary.wastedBytes / e.summary.totalBytes * 100)
    (htr : ∀ e ∈ entries, ∀ nr, e.networkRecord = some nr →
      0 ≤ nr.transferEstimate) :
    (∀ it ∈ (audit_ opts entries).1,
      it.wastedBytes ≤ it.totalBytes ∧
      ∃ a b : ℚ, it.wastedBytes = jsRound a ∧ it.totalBytes = jsRound b ∧
        a / b * 100 = it.wastedPercent) ∧
    (∀ g ∈ (audit_ opts entries).2,
      g.wastedBytes ≤ g.totalBytes ∧
      g.wastedPercent = (g.wastedBytes : ℚ) / (g.totalBytes : ℚ) * 100) := by
  constructor
  · intro it hit
    obtain ⟨e, he, hee⟩ := mem_audit_items hit
    obtain ⟨hw0, hwt, hp⟩ := hsum e he
    obtain ⟨hle, hex⟩ := emittedItem_item_props hee hw0 hwt (htr e he)
    exact ⟨hle, hex hthr hp⟩
  · intro g hg
    obtain ⟨p, hp, hpg⟩ := List.mem_map.mp hg
    have hp' : p ∈ ((entries.foldl
        (processEntry (opts.unusedThreshold.getD UNUSED_BYTES_IGNORE_THRESHOLD)
          (opts.bundleSourceUnusedThreshold.getD
            UNUSED_BYTES_IGNORE_BUNDLE_SOURCE_THRESHOLD))
        (⟨[], []⟩ : AuditState)).byEntity) := hp
    have hle := auditFold_wasted_le
      (opts.unusedThreshold.getD UNUSED_BYTES_IGNORE_THRESHOLD)
      (opts.bundleSourceUnusedThreshold.getD
        UNUSED_BYTES_IGNORE_BUNDLE_SOURCE_THRESHOLD) entries
      (by
        intro e he item hitem
        obtain ⟨hw0, hwt, _⟩ := hsum e he
        exact (emittedItem_item_props hitem hw0 hwt (htr e he)).1)
      ⟨[], []⟩ (by intro q hq; exact absurd hq (by simp)) p hp'
    have hpct := auditFold_percent
      (opts.unusedThreshold.getD UNUSED_BYTES_IGNORE_THRESHOLD)
      (opts.bundleSourceUnusedThreshold.getD
        UNUSED_BYTES_IGNORE_BUNDLE_SOURCE_THRESHOLD) entries
      ⟨[], []⟩ (by intro q hq; exact absurd hq (by simp)) p hp'
    rw [← hpg]
    exact ⟨hle, hpct⟩

theorem audit_items_entryShared :
    (audit_ defaultOptions [entryShared]).1 = [itemShared] := by
  show (([entryShared].foldl
    (processEntry UNUSED_BYTES_IGNORE_THRESHOLD
      UNUSED_BYTES_IGNORE_BUNDLE_SOURCE_THRESHOLD)
    (⟨[], []⟩ : AuditState))).items = _
  rw [List.foldl_cons, List.foldl_nil,
    processEntry_of_some emittedItem_entryShared]
  rfl

/-- Concrete instance of `C4_waste_invariants`: the item emitted for
`entryShared` satisfies the invariant. -/
theorem C4_waste_invariants_witness :
    itemShared.wastedBytes ≤ itemShared.totalBytes ∧
    ∃ a b : ℚ, itemShared.wastedBytes = jsRound a ∧
      itemShared.totalBytes = jsRound b ∧
      a / b * 100 = itemShared.wastedPercent := by
  refine (C4_waste_invariants defaultOptions [entryShared]
    (by norm_num [defaultOptions, UNUSED_BYTES_IGNORE_THRESHOLD])
    ?_ ?_).1 itemShared ?_
  · intro e he
    rw [List.mem_singleton] at he
    subst he
    refine ⟨by norm_num [entryShared], by norm_num [entryShared],
      by norm_num [entryShared]⟩
  · intro e he nr hnr
    rw [List.mem_singleton] at he
    subst he
    simp only [entryShared, Option.some.injEq] at hnr
    rw [← hnr]
    norm_num
  · rw [audit_items_entryShared]
    exact List.mem_singleton.mpr rfl

/-! ### Claim C9: at most five sub-items, in descending wasted-byte order -/

theorem computeSubItemsList_length_le (r bT : ℚ) (b : Bundle) (sz : BundleSizes)
    (swb : List (JsStr × ℚ)) : (computeSubItemsList r bT b sz swb).length ≤ 5 := by
  show ((((((sortByUnusedDesc swb).take 5).map _).filter _).map _).length) ≤ 5
  rw [List.length_map]
  calc ((((sortByUnusedDesc swb).take 5).map _).filter _).length
      ≤ (((sortByUnusedDesc swb).take 5).map _).length :=
        List.length_filter_le _ _
    _ = ((sortByUnusedDesc swb).take 5).length := List.length_map _ _
    _ ≤ 5 := by rw [List.length_take]; exact min_le_left _ _

theorem computeSubItemsList_sorted (r bT : ℚ) (b : Bundle) (sz : BundleSizes)
    (swb : List (JsStr × ℚ)) (hr : 0 ≤ r) :
    List.Pairwise (fun a b => b.sourceWastedBytes ≤ a.sourceWastedBytes)
      (computeSubItemsList r bT b sz swb) := by
  have hsorted : List.Pairwise (fun x y : JsStr × ℚ => y.2 ≤ x.2)
      (sortByUnusedDesc swb) := by
    have hs := @List.sorted_mergeSort (JsStr × ℚ)
      (fun x y : JsStr × ℚ => decide (y.2 ≤ x.2))
      (by intro a b c hab hbc; simp at hab hbc ⊢; linarith)
      (by intro a b; simp [le_total]) swb
    refine hs.imp ?_
    intro a b h
    simpa using h
  have htake : List.Pairwise (fun x y : JsStr × ℚ => y.2 ≤ x.2)
      ((sortByUnusedDesc swb).take 5) :=
    List.Pairwise.sublist (List.take_sublist 5 _) hsorted
  have hmap : List.Pairwise (fun d d' : JsStr × ℤ × ℤ => d'.2.1 ≤ d.2.1)
      (((sortByUnusedDesc swb).take 5).map (fun p =>
        (p.1, jsRound (p.2 * r),
         jsRound ((if p.1 = unmappedKey then sz.unmappedBytes
                   else lookupSize sz.files p.1) * r)))) := by
    rw [List.pairwise_map]
    refine htake.imp ?_
    intro a b h
    exact jsRound_mono (mul_le_mul_of_nonneg_right h hr)
  have hfilter : List.Pairwise (fun d d' : JsStr × ℤ × ℤ => d'.2.1 ≤ d.2.1)
      ((((sortByUnusedDesc swb).take 5).map (fun p =>
        (p.1, jsRound (p.2 * r),
         jsRound ((if p.1 = unmappedKey then sz.unmappedBytes
                   else lookupSize sz.files p.1) * r)))).filter
        (fun d => decide (bT ≤ (d.2.1 : ℚ)))) :=
    List.Pairwise.sublist (List.filter_sublist _) hmap
  show List.Pairwise _ ((_ : List (JsStr × ℤ × ℤ)).map _)
  rw [List.pairwise_map]
  exact hfilter

/-- C9: every item in the audit output carries at most 5 sub-items, listed in
non-increasing order of their (scaled, rounded) wasted-byte values, assuming
nonnegative summary totals and transfer estimates. -/
theorem C9_subitem_cap_and_order (opts : AuditOptions) (entries : List ScriptEntry)
    (hsum : ∀ e ∈ entries, 0 ≤ e.summary.totalBytes)
    (htr : ∀ e ∈ entries, ∀ nr, e.networkRecord = some nr →
      0 ≤ nr.transferEstimate) :
    ∀ it ∈ (audit_ opts entries).1, ∀ l, it.subItems = some l →
      l.length ≤ 5 ∧
      List.Pairwise (fun a b => b.sourceWastedBytes ≤ a.sourceWastedBytes) l := by
  intro it hit l hl
  obtain ⟨e, he, hee⟩ := mem_audit_items hit
  obtain ⟨script, nr, hs, hn, hg, hc, hitem⟩ := emittedItem_some_elim hee
  subst hitem
  have hl' : subItemsFor
      (opts.bundleSourceUnusedThreshold.getD
        UNUSED_BYTES_IGNORE_BUNDLE_SOURCE_THRESHOLD)
      (nr.transferEstimate / e.summary.totalBytes) e.bundle e.summary =
      some l := hl
  have hr : 0 ≤ nr.transferEstimate / e.summary.totalBytes :=
    div_nonneg (htr e he nr hn) (hsum e he)
  cases hb : e.bundle with
  | none =>
    rw [hb] at hl'
    simp [subItemsFor] at hl'
  | some b =>
    rw [hb] at hl'
    cases hsz : b.sizes with
    | error m =>
      simp [subItemsFor, hsz] at hl'
    | ok sz =>
      cases hswb : e.summary.sourcesWastedBytes with
      | none =>
        simp [subItemsFor, hsz, hswb] at hl'
      | some swb =>
        have hleq : subItemsFor
            (opts.bundleSourceUnusedThreshold.getD
              UNUSED_BYTES_IGNORE_BUNDLE_SOURCE_THRESHOLD)
            (nr.transferEstimate / e.summary.totalBytes) (some b) e.summary =
            some (computeSubItemsList
              (nr.transferEstimate / e.summary.totalBytes)
              (opts.bundleSourceUnusedThreshold.getD
                UNUSED_BYTES_IGNORE_BUNDLE_SOURCE_THRESHOLD) b sz swb) := by
          simp [subItemsFor, hsz, hswb]
        rw [hleq] at hl'
        have hleq2 := Option.some_injective _ hl'
        rw [← hleq2]
        exact ⟨computeSubItemsList_length_le _ _ _ _ _,
          computeSubItemsList_sorted _ _ _ _ _ hr⟩

/-- A bundle with two mapped sources and its coverage summary. -/
def bundleAB : Bundle :=
  ⟨Except.ok ⟨[("a.js".toList, 1000), ("b.js".toList, 9000)], 0⟩, []⟩

/-- A script whose bundle has sources a.js (1000 bytes, 100 unused) and b.js
(9000 bytes, 8000 unused), transfer ratio 1. -/
def entryWithBundle : ScriptEntry :=
  ⟨some ⟨"bundle.js".toList⟩, some ⟨100000⟩, some bundleAB,
   ⟨100000, 50000, 50, some [("a.js".toList, 100), ("b.js".toList, 8000)]⟩,
   none⟩

/-- The item `entryWithBundle` contributes: only b.js survives the per-source
threshold. -/
def itemWithBundle : WasteItem :=
  ⟨"bundle.js".toList, 100000, 50000, 50, none,
   some [⟨"b.js".toList, 9000, 8000⟩]⟩

theorem emittedItem_entryWithBundle :
    emittedItem UNUSED_BYTES_IGNORE_THRESHOLD
      UNUSED_BYTES_IGNORE_BUNDLE_SOURCE_THRESHOLD entryWithBundle =
      some itemWithBundle := by
  rw [@emittedItem_eq UNUSED_BYTES_IGNORE_THRESHOLD
    UNUSED_BYTES_IGNORE_BUNDLE_SOURCE_THRESHOLD _ ⟨"bundle.js".toList⟩ ⟨100000⟩
    rfl rfl (by norm_num [entryWithBundle])]
  norm_num [scaledItem, subItemsFor, entryWithBundle, bundleAB,
    computeSubItemsList, sortByUnusedDesc, List.mergeSort, List.merge,
    lookupSize, unmappedKey, jsRound, itemWithBundle, trimCommonPrefix,
    commonPrefix, UNUSED_BYTES_IGNORE_THRESHOLD,
    UNUSED_BYTES_IGNORE_BUNDLE_SOURCE_THRESHOLD]
  rw [if_neg (by decide),
    show List.find? (fun p => decide (p.1 = ['b', '.', 'j', 's']))
      [(['a', '.', 'j', 's'], (1000 : ℚ)), (['b', '.', 'j', 's'], 9000)] =
      some (['b', '.', 'j', 's'], (9000 : ℚ)) from by decide]
  norm_num

theorem audit_items_entryWithBundle :
    (audit_ defaultOptions [entryWithBundle]).1 = [itemWithBundle] := by
  show (([entryWithBundle].foldl
    (processEntry UNUSED_BYTES_IGNORE_THRESHOLD
      UNUSED_BYTES_IGNORE_BUNDLE_SOURCE_THRESHOLD)
    (⟨[], []⟩ : AuditState))).items = _
  rw [List.foldl_cons, List.foldl_nil,
    processEntry_of_some emittedItem_entryWithBundle]
  rfl

/-- Concrete instance of `C9_subitem_cap_and_order` on a two-source bundle. -/
theorem C9_subitem_cap_and_order_witness :
    [(⟨"b.js".toList, 9000, 8000⟩ : SubItem)].length ≤ 5 ∧
    List.Pairwise (fun a b => b.sourceWastedBytes ≤ a.sourceWastedBytes)
      [(⟨"b.js".toList, 9000, 8000⟩ : SubItem)] := by
  refine C9_subitem_cap_and_order defaultOptions [entryWithBundle] ?_ ?_
    itemWithBundle ?_ [⟨"b.js".toList, 9000, 8000⟩] rfl
  · intro e he
    rw [List.mem_singleton] at he
    subst he
    norm_num [entryWithBundle]
  · intro e he nr hnr
    rw [List.mem_singleton] at he
    subst he
    simp only [entryWithBundle, Option.some.injEq] at hnr
    rw [← hnr]
    norm_num
  · rw [audit_items_entryWithBundle]
    exact List.mem_singleton.mpr rfl

/-! ### Claim C1: the per-source inclusion threshold boundary

The source keeps a candidate when `d.unused >= bundleSourceUnusedThreshold`
(line 159), so an entry whose scaled wasted bytes equal the threshold is
retained, not dropped; only entries strictly below the threshold are
dropped. -/

theorem computeSubItemsList_eq (r bT : ℚ) (b : Bundle) (sz : BundleSizes)
    (swb : List (JsStr × ℚ)) :
    computeSubItemsList r bT b sz swb =
      ((((sortByUnusedDesc swb).take 5).map (fun p =>
        (p.1, jsRound (p.2 * r),
         jsRound ((if p.1 = unmappedKey then sz.unmappedBytes
                   else lookupSize sz.files p.1) * r)))).filter
        (fun d => decide (bT ≤ (d.2.1 : ℚ)))).map
        (fun d => { source := trimCommonPrefix d.1 (commonPrefix b.sourceURLs)
                    sourceBytes := d.2.2
                    sourceWastedBytes := d.2.1 }) := rfl

/-- C1 (amended): every emitted sub-item's scaled, rounded wasted-byte value
is at least the per-source threshold — entries strictly below it are dropped —
and every top-5 candidate whose scaled value reaches the threshold, including
exactly at it, is retained. -/
theorem C1_per_source_threshold (r bT : ℚ) (b : Bundle) (sz : BundleSizes)
    (swb : List (JsStr × ℚ)) :
    (∀ si ∈ computeSubItemsList r bT b sz swb,
      bT ≤ (si.sourceWastedBytes : ℚ)) ∧
    (∀ p ∈ (sortByUnusedDesc swb).take 5, bT ≤ ((jsRound (p.2 * r) : ℤ) : ℚ) →
      ∃ si ∈ computeSubItemsList r bT b sz swb,
        si.sourceWastedBytes = jsRound (p.2 * r)) := by
  constructor
  · intro si hsi
    rw [computeSubItemsList_eq] at hsi
    obtain ⟨d, hd, rfl⟩ := List.mem_map.mp hsi
    have hcond := (List.mem_filter.mp hd).2
    simpa using hcond
  · intro p hp hthr
    rw [computeSubItemsList_eq]
    refine ⟨_, List.mem_map_of_mem _
      (List.mem_filter.mpr ⟨List.mem_map_of_mem _ hp, ?_⟩), rfl⟩
    exact decide_eq_true hthr

/-- A bundle with one mapped 1000-byte source. -/
def bundleC1 : Bundle := ⟨Except.ok ⟨[("a.js".toList, 1000)], 0⟩, []⟩

/-- A script whose single bundle source has scaled wasted bytes exactly 512,
the default per-source threshold (transfer ratio 1). -/
def entryAt512 : ScriptEntry :=
  ⟨some ⟨"c.js".toList⟩, some ⟨100000⟩, some bundleC1,
   ⟨100000, 50000, 50, some [("a.js".toList, 512)]⟩, none⟩

theorem emittedItem_entryAt512 :
    emittedItem UNUSED_BYTES_IGNORE_THRESHOLD
      UNUSED_BYTES_IGNORE_BUNDLE_SOURCE_THRESHOLD entryAt512 =
      some ⟨"c.js".toList, 100000, 50000, 50, none,
        some [⟨"a.js".toList, 1000, 512⟩]⟩ := by
  rw [@emittedItem_eq UNUSED_BYTES_IGNORE_THRESHOLD
    UNUSED_BYTES_IGNORE_BUNDLE_SOURCE_THRESHOLD _ ⟨"c.js".toList⟩ ⟨100000⟩
    rfl rfl (by norm_num [entryAt512])]
  norm_num [scaledItem, subItemsFor, entryAt512, bundleC1,
    computeSubItemsList, sortByUnusedDesc, List.mergeSort, List.merge,
    lookupSize, unmappedKey, jsRound, trimCommonPrefix, commonPrefix,
    UNUSED_BYTES_IGNORE_THRESHOLD,
    UNUSED_BYTES_IGNORE_BUNDLE_SOURCE_THRESHOLD]
  rw [if_neg (by decide)]
  norm_num

/-- C1 counterexample: with the default per-source threshold 512, a candidate
sub-item whose transfer-scaled, rounded wasted-byte value equals 512 exactly
is retained in the emitted sub-item list — the claim says any value at or
below the threshold is dropped. -/
theorem C1_per_source_threshold_counterexample :
    (audit_ defaultOptions [entryAt512]).1 =
      [⟨"c.js".toList, 100000, 50000, 50, none,
        some [⟨"a.js".toList, 1000, 512⟩]⟩] := by
  show (([entryAt512].foldl
    (processEntry UNUSED_BYTES_IGNORE_THRESHOLD
      UNUSED_BYTES_IGNORE_BUNDLE_SOURCE_THRESHOLD)
    (⟨[], []⟩ : AuditState))).items = _
  rw [List.foldl_cons, List.foldl_nil,
    processEntry_of_some emittedItem_entryAt512]
  rfl

/-- Concrete instance of `C1_per_source_threshold`: the 512-valued candidate
is retained at threshold 512. -/
theorem C1_per_source_threshold_witness :
    ∃ si ∈ computeSubItemsList 1 512 bundleC1 ⟨[("a.js".toList, 1000)], 0⟩
      [("a.js".toList, 512)],
      si.sourceWastedBytes = jsRound ((512 : ℚ) * 1) :=
  (C1_per_source_threshold 1 512 bundleC1 ⟨[("a.js".toList, 1000)], 0⟩
    [("a.js".toList, 512)]).2 ("a.js".toList, 512)
    (by norm_num [sortByUnusedDesc, List.mergeSort])
    (by rw [show jsRound ((512 : ℚ) * 1) = 512 from by unfold jsRound; norm_num]
        norm_num)

/-! ### Claim C6: `commonPrefix` computes the longest common prefix

The algorithm takes the lexicographic extremes of the list and trims the
minimum until it is a prefix of the maximum. The order facts below justify
it. -/

theorem ltb_irrefl : ∀ a : JsStr, ltb a a = false
  | [] => rfl
  | c :: as => by simp [ltb, lt_self_iff_false, ltb_irrefl as]

theorem ltb_asymm : ∀ {a b : JsStr}, ltb a b = true → ltb b a = false
  | [], [], h => by simp [ltb] at h
  | [], _ :: _, _ => rfl
  | _ :: _, [], h => by simp [ltb] at h
  | a :: as, b :: bs, h => by
    simp only [ltb] at h ⊢
    by_cases hab : a < b
    · simp [hab, lt_asymm hab]
    · by_cases hba : b < a
      · simp [hab, hba] at h
      · simp only [hab, hba, if_false] at h ⊢
        exact ltb_asymm h

theorem ltb_false_trans : ∀ (a b c : JsStr),
    ltb b a = false → ltb c b = false → ltb c a = false
  | [], _, c, _, _ => by
    cases c <;> rfl
  | _ :: _, [], _, h1, _ => by simp [ltb] at h1
  | _ :: _, _ :: _, [], _, h2 => by simp [ltb] at h2
  | x :: as, y :: bs, z :: cs, h1, h2 => by
    by_cases hyx : y < x
    · simp [ltb, hyx] at h1
    · by_cases hzy : z < y
      · simp [ltb, hzy] at h2
      · have hxy : x ≤ y := not_lt.mp hyx
        have hyz : y ≤ z := not_lt.mp hzy
        have hzx : ¬ z < x := not_lt.mpr (le_trans hxy hyz)
        by_cases hxz : x < z
        · simp [ltb, hzx, hxz]
        · have hxz' : x = z := le_antisymm (le_trans hxy hyz)
            (not_lt.mp hxz)
          subst hxz'
          have hxy' : x = y := le_antisymm hxy hyz
          subst hxy'
          simp only [ltb, lt_self_iff_false, if_false] at h1 h2 ⊢
          exact ltb_false_trans as bs cs h1 h2

theorem foldl_max_spec : ∀ (rest : List JsStr) (s : JsStr),
    ((rest.foldl (fun a b => if ltb b a then a else b) s) ∈ s :: rest) ∧
    ∀ x ∈ s :: rest,
      ltb (rest.foldl (fun a b => if ltb b a then a else b) s) x = false := by
  intro rest
  induction rest with
  | nil =>
    intro s
    refine ⟨by simp, ?_⟩
    intro x hx
    rw [List.mem_singleton] at hx
    subst hx
    exact ltb_irrefl _
  | cons b rest ih =>
    intro s
    rw [List.foldl_cons]
    by_cases hb : ltb b s
    · rw [if_pos hb]
      obtain ⟨hmem, hall⟩ := ih s
      constructor
      · rcases List.mem_cons.mp hmem with h | h
        · rw [h]; exact List.mem_cons_self _ _
        · exact List.mem_cons_of_mem _ (List.mem_cons_of_mem _ h)
      · intro x hx
        rcases List.mem_cons.mp hx with hx | hx
        · exact hx ▸ hall s (List.mem_cons_self _ _)
        · rcases List.mem_cons.mp hx with hx | hx
          · subst hx
            exact ltb_false_trans x s _ (ltb_asymm hb)
              (hall s (List.mem_cons_self _ _))
          · exact hall x (List.mem_cons_of_mem _ hx)
    · rw [if_neg hb]
      obtain ⟨hmem, hall⟩ := ih b
      constructor
      · rcases List.mem_cons.mp hmem with h | h
        · rw [h]; exact List.mem_cons_of_mem _ (List.mem_cons_self _ _)
        · exact List.mem_cons_of_mem _ (List.mem_cons_of_mem _ h)
      · intro x hx
        rcases List.mem_cons.mp hx with hx | hx
        · subst hx
          exact ltb_false_trans x b _ (eq_false_of_ne_true hb)
            (hall b (List.mem_cons_self _ _))
        · rcases List.mem_cons.mp hx with hx | hx
          · exact hx ▸ hall b (List.mem_cons_self _ _)
          · exact hall x (List.mem_cons_of_mem _ hx)

theorem foldl_min_spec : ∀ (rest : List JsStr) (s : JsStr),
    ((rest.foldl (fun a b => if ltb b a then b else a) s) ∈ s :: rest) ∧
    ∀ x ∈ s :: rest,
      ltb x (rest.foldl (fun a b => if ltb b a then b else a) s) = false := by
  intro rest
  induction rest with
  | nil =>
    intro s
    refine ⟨by simp, ?_⟩
    intro x hx
    rw [List.mem_singleton] at hx
    subst hx
    exact ltb_irrefl _
  | cons b rest ih =>
    intro s
    rw [List.foldl_cons]
    by_cases hb : ltb b s
    · rw [if_pos hb]
      obtain ⟨hmem, hall⟩ := ih b
      constructor
      · rcases List.mem_cons.mp hmem with h | h
        · rw [h]; exact List.mem_cons_of_mem _ (List.mem_cons_self _ _)
        · exact List.mem_cons_of_mem _ (List.mem_cons_of_mem _ h)
      · intro x hx
        rcases List.mem_cons.mp hx with hx | hx
        · subst hx
          exact ltb_false_trans _ b x (hall b (List.mem_cons_self _ _))
            (ltb_asymm hb)
        · rcases List.mem_cons.mp hx with hx | hx
          · exact hx ▸ hall b (List.mem_cons_self _ _)
          · exact hall x (List.mem_cons_of_mem _ hx)
    · rw [if_neg hb]
      obtain ⟨hmem, hall⟩ := ih s
      constructor
      · rcases List.mem_cons.mp hmem with h | h
        · rw [h]; exact List.mem_cons_self _ _
        · exact List.mem_cons_of_mem _ (List.mem_cons_of_mem _ h)
      · intro x hx
        rcases List.mem_cons.mp hx with hx | hx
        · exact hx ▸ hall s (List.mem_cons_self _ _)
        · rcases List.mem_cons.mp hx with hx | hx
          · subst hx
            exact ltb_false_trans _ s x (hall s (List.mem_cons_self _ _))
              (eq_false_of_ne_true hb)
          · exact hall x (List.mem_cons_of_mem _ hx)

theorem shorten_eq (maxW p : JsStr) :
    shorten maxW p =
      if p.isPrefixOf maxW then p else shorten maxW p.dropLast := by
  conv_lhs => unfold shorten
  by_cases h : p.isPrefixOf maxW
  · rw [dif_pos h, if_pos h]
  · rw [dif_neg h, if_neg h]

theorem shorten_spec : ∀ (n : ℕ) (maxW p : JsStr), p.length ≤ n →
    (shorten maxW p) <+: p ∧ (shorten maxW p) <+: maxW ∧
    (∀ r, r <+: p → r <+: maxW → r <+: shorten maxW p) := by
  intro n
  induction n with
  | zero =>
    intro maxW p hp
    have hp0 : p = [] := List.length_eq_zero.mp (Nat.le_zero.mp hp)
    subst hp0
    rw [shorten_eq, if_pos (by simp [List.isPrefixOf])]
    exact ⟨List.prefix_refl _, List.nil_prefix, fun r hr _ => hr⟩
  | succ n ih =>
    intro maxW p hp
    rw [shorten_eq]
    by_cases h : p.isPrefixOf maxW
    · rw [if_pos h]
      exact ⟨List.prefix_refl _, List.isPrefixOf_iff_prefix.mp h,
        fun r hr _ => hr⟩
    · rw [if_neg h]
      have hne : p ≠ [] := by
        intro he
        subst he
        simp [List.isPrefixOf] at h
      have hlen : p.dropLast.length ≤ n := by
        rw [List.length_dropLast]
        have : 0 < p.length := List.length_pos.mpr hne
        omega
      obtain ⟨h1, h2, h3⟩ := ih maxW p.dropLast hlen
      refine ⟨h1.trans (List.dropLast_prefix p), h2, ?_⟩
      intro r hr hrm
      refine h3 r ?_ hrm
      have hrp : r ≠ p := by
        intro he
        subst he
        exact h (List.isPrefixOf_iff_prefix.mpr hrm)
      have hlt : r.length < p.length :=
        lt_of_le_of_ne hr.length_le
          (fun hl => hrp (List.IsPrefix.eq_of_length hr hl))
      rw [List.dropLast_eq_take]
      exact List.prefix_take_iff.mpr ⟨hr, by omega⟩

theorem shorten_spec_all (maxW p : JsStr) :
    (shorten maxW p) <+: p ∧ (shorten maxW p) <+: maxW ∧
    (∀ r, r <+: p → r <+: maxW → r <+: shorten maxW p) :=
  shorten_spec p.length maxW p le_rfl

/-- A common prefix of the lexicographic extremes is a prefix of anything
lying between them. -/
theorem lex_between : ∀ (r minW maxW s : JsStr),
    r <+: minW → r <+: maxW → ltb s minW = false → ltb maxW s = false →
    r <+: s
  | [], _, _, s, _, _, _, _ => List.nil_prefix
  | c :: r, minW, maxW, s, hrmin, hrmax, h1, h2 => by
    cases minW with
    | nil => exact absurd hrmin (by simp)
    | cons cm m =>
      cases maxW with
      | nil => exact absurd hrmax (by simp)
      | cons cM M =>
        obtain ⟨hc1, hr1⟩ := List.cons_prefix_cons.mp hrmin
        obtain ⟨hc2, hr2⟩ := List.cons_prefix_cons.mp hrmax
        subst hc1
        subst hc2
        cases s with
        | nil => simp [ltb] at h1
        | cons d s' =>
          by_cases hdc : d < c
          · simp [ltb, hdc] at h1
          · by_cases hcd : c < d
            · simp [ltb, hcd] at h2
            · have hdc' : d = c := le_antisymm (not_lt.mp hcd) (not_lt.mp hdc)
              subst hdc'
              simp only [ltb, lt_self_iff_false, if_false] at h1 h2
              exact List.cons_prefix_cons.mpr
                ⟨rfl, lex_between r m M s' hr1 hr2 h1 h2⟩

theorem commonPrefix_cons (s0 : JsStr) (rest : List JsStr) :
    commonPrefix (s0 :: rest) =
      shorten (rest.foldl (fun a b => if ltb b a then a else b) s0)
        (rest.foldl (fun a b => if ltb b a then b else a) s0) := rfl

/-- C6: `commonPrefix` returns a prefix of every element of the list; for a
nonempty list it is the longest such string — no character can be appended
without breaking at least one element's match; and the empty list yields the
empty string. -/
theorem C6_commonPrefix (S : List JsStr) :
    (∀ s ∈ S, commonPrefix S <+: s) ∧
    (S ≠ [] → ∀ c : Char, ∃ s ∈ S, ¬ (commonPrefix S ++ [c]) <+: s) ∧
    commonPrefix ([] : List JsStr) = [] := by
  refine ⟨?_, ?_, rfl⟩
  · intro s hs
    cases S with
    | nil => exact absurd hs (by simp)
    | cons s0 rest =>
      rw [commonPrefix_cons]
      obtain ⟨hps, hpm, _⟩ := shorten_spec_all
        (rest.foldl (fun a b => if ltb b a then a else b) s0)
        (rest.foldl (fun a b => if ltb b a then b else a) s0)
      obtain ⟨_, hmaxall⟩ := foldl_max_spec rest s0
      obtain ⟨_, hminall⟩ := foldl_min_spec rest s0
      exact lex_between _ _ _ s hps hpm (hminall s hs) (hmaxall s hs)
  · intro hne c
    cases S with
    | nil => exact absurd rfl hne
    | cons s0 rest =>
      by_contra hcon
      push_neg at hcon
      obtain ⟨hmaxmem, _⟩ := foldl_max_spec rest s0
      obtain ⟨hminmem, _⟩ := foldl_min_spec rest s0
      have h1 := hcon _ hminmem
      have h2 := hcon _ hmaxmem
      rw [commonPrefix_cons] at h1 h2
      obtain ⟨_, _, hmaximal⟩ := shorten_spec_all
        (rest.foldl (fun a b => if ltb b a then a else b) s0)
        (rest.foldl (fun a b => if ltb b a then b else a) s0)
      have hpre := hmaximal _ h1 h2
      have hlen := hpre.length_le
      simp at hlen

/-- Concrete instance of `C6_commonPrefix` on a two-element list. -/
theorem C6_commonPrefix_witness :
    commonPrefix ["abc".toList, "abd".toList] <+: "abc".toList ∧
    (∃ s ∈ ["abc".toList, "abd".toList],
      ¬ (commonPrefix ["abc".toList, "abd".toList] ++ ['z']) <+: s) ∧
    commonPrefix ["abc".toList, "abd".toList] = "ab".toList :=
  ⟨(C6_commonPrefix ["abc".toList, "abd".toList]).1 _ (by simp),
   (C6_commonPrefix ["abc".toList, "abd".toList]).2.1 (by simp) 'z',
   by
    show shorten "abd".toList "abc".toList = "ab".toList
    rw [shorten_eq, if_neg (by decide),
      show ("abc".toList).dropLast = "ab".toList from by decide,
      shorten_eq, if_pos (by decide)]⟩

end Lighthouse
